import Mathlib

/-!
Shallow embedding of `src/tools/downscale_texture.py`, a texture downscaler
built on PIL.  The two functions of the source, `downscale_texture` and
`batch_downscale`, are embedded as pure Lean functions over an explicit
world (does the input exist, which files a directory holds, whether PIL can
decode a file) and return a trace of observable effects (files opened,
resize invocations, directories created, messages printed) next to an
`Except` result.

Modelling conventions:
* Python float arithmetic (`target_size / max(original_size)`, then
  `original_size[i] * ratio`) is IEEE-754 binary64: values are modelled as
  integer significand-exponent pairs (`FloatRep`), every operation rounds
  correctly to 53 bits (round to nearest, ties to even, `roundPos`), and
  `int()` truncates toward zero (`fpTrunc`).  CPython divides two ints with
  one correctly-rounded binary64 division and converts an int operand of
  `*` to binary64 first; `calcNewSize` mirrors exactly that.  Overflow to
  infinity and signed zeros lie outside the modelled range; the theorems
  carry the corresponding size bounds.
* `pathlib.Path` values are modelled structurally as a parent directory
  string, a stem and a suffix (the suffix carries its leading dot), which
  is the decomposition the source manipulates.
* A PIL image is modelled by its pixel dimensions and its mode string;
  nearest-neighbour resampling only changes the dimensions, and
  `convert("RGB")` only changes the mode.  Images that carry an alpha
  channel reach this tool in mode `"RGBA"`, the representation the source
  tests for.
* Python `str.lower()` on the ASCII suffixes handled here is `strLower`.
-/

/-- ASCII lowercasing of one character, as Python `str.lower()` acts on the
ASCII range used by file suffixes. -/
def lowerChar (c : Char) : Char :=
  if 65 ≤ c.toNat ∧ c.toNat ≤ 90 then Char.ofNat (c.toNat + 32) else c

/-- ASCII lowercasing of a string, the model of Python `str.lower()`. -/
def strLower (s : String) : String := ⟨s.data.map lowerChar⟩

/-- Fuelled binary logarithm: `log2fuel fuel n` is the floor of log₂ n
whenever `1 ≤ n ≤ fuel`.  (Fuelled so that the kernel can evaluate it on
literals.) -/
def log2fuel : ℕ → ℕ → ℕ
  | 0, _ => 0
  | fuel+1, n => if 2 ≤ n then log2fuel fuel (n / 2) + 1 else 0

/-- Floor of log₂ n for positive `n`. -/
def natLog2 (n : ℕ) : ℕ := log2fuel n n

/-- Round-half-to-even of the fraction `a / b` (for `b > 0`) to an
integer: the rounding used by IEEE-754 binary64 arithmetic. -/
def rnear (a b : ℤ) : ℤ :=
  let n := a.ediv b
  let r := a.emod b
  if 2 * r < b then n
  else if b < 2 * r then n + 1
  else if n.emod 2 = 0 then n else n + 1

/-- Floor of log₂ (p/q) for positive integers `p`, `q`. -/
def floorLog2 (p q : ℤ) : ℤ :=
  let k : ℤ := (natLog2 p.toNat : ℤ) - (natLog2 q.toNat : ℤ)
  if q * 2 ^ (max k 0).toNat ≤ p * 2 ^ (max (-k) 0).toNat then k else k - 1

/-- A binary64 value: significand times a power of two, the significand
carrying the sign. -/
structure FloatRep where
  m : ℤ
  e : ℤ
deriving DecidableEq, Repr

/-- The exact rational value of a binary64 representation. -/
def FloatRep.toRat (x : FloatRep) : ℚ := (x.m : ℚ) * (2:ℚ) ^ x.e

/-- Correct IEEE-754 binary64 rounding (round to nearest, ties to even,
53-bit significand, subnormal below 2^(-1022)) of a positive fraction
`p / q`; overflow to infinity lies outside the modelled range. -/
def roundPos (p q : ℤ) : FloatRep :=
  let e := floorLog2 p q
  let step : ℤ := max (e - 52) (-1074)
  ⟨rnear (p * 2 ^ (max (-step) 0).toNat) (q * 2 ^ (max step 0).toNat), step⟩

/-- Binary64 rounding of an arbitrary fraction `p / q` with `q > 0`, as
CPython rounds the true quotient of two ints to a float. -/
def fpRound (p q : ℤ) : FloatRep :=
  if 0 < p then roundPos p q
  else if p = 0 then ⟨0, 0⟩
  else ⟨-(roundPos (-p) q).m, (roundPos (-p) q).e⟩

/-- Binary64 multiplication: the exact product of the representations,
rounded back to binary64. -/
def fpMul (x y : FloatRep) : FloatRep :=
  fpRound (x.m * y.m * 2 ^ (max (x.e + y.e) 0).toNat)
    (2 ^ (max (-(x.e + y.e)) 0).toNat)

/-- Python `int()` applied to a binary64 value: truncation toward zero. -/
def fpTrunc (x : FloatRep) : ℤ :=
  if 0 ≤ x.e then x.m * 2 ^ x.e.toNat
  else x.m.tdiv (2 ^ (-x.e).toNat)

/-- Structural model of a `pathlib.Path`: parent directory, stem and
suffix, mirroring `Path.parent`, `Path.stem` and `Path.suffix` (the suffix
includes its leading dot). -/
structure FsPath where
  parent : String
  stem : String
  suffix : String
deriving DecidableEq, Repr

/-- Rendering of a path as a string, as `str(path)` produces it. -/
def FsPath.render (p : FsPath) : String := p.parent ++ "/" ++ p.stem ++ p.suffix

/-- A decoded PIL image as this tool observes it: pixel dimensions and the
PIL mode string (`"RGBA"`, `"RGB"`, ...). -/
structure PILImage where
  width : ℤ
  height : ℤ
  mode : String
deriving DecidableEq, Repr

/-- `img.resize(new_size, Image.Resampling.NEAREST)`: the result has the
requested dimensions and keeps the mode of the input. -/
def PILImage.resizeNearest (img : PILImage) (new_size : ℤ × ℤ) : PILImage :=
  { width := new_size.1, height := new_size.2, mode := img.mode }

/-- `img.convert("RGB")`: drop the alpha channel, keeping the pixel grid. -/
def PILImage.convertRGB (img : PILImage) : PILImage :=
  { img with mode := "RGB" }

/-- The target-dimension computation of `downscale_texture`
(src/tools/downscale_texture.py lines 46-54).  With `maintain_aspect` the
code computes `ratio = target_size / max(original_size)` — CPython's
correctly-rounded binary64 division of two ints — and takes
`(max(1, int(w0 * ratio)), max(1, int(h0 * ratio)))`, where `w0 * ratio`
converts the int to binary64 and multiplies in binary64, and `int()`
truncates toward zero; otherwise it forces the square
`(target_size, target_size)`. -/
def calcNewSize (w0 h0 : ℤ) (target_size : ℕ) (maintain_aspect : Bool) : ℤ × ℤ :=
  if maintain_aspect then
    let ratio := fpRound (target_size : ℤ) (max w0 h0)
    (max 1 (fpTrunc (fpMul (fpRound w0 1) ratio)),
     max 1 (fpTrunc (fpMul (fpRound h0 1) ratio)))
  else
    ((target_size : ℤ), (target_size : ℤ))

/-- The Python exceptions the tool raises or propagates. -/
inductive PyError where
  | fileNotFound (msg : String)
  | notADirectory (msg : String)
  | codecError (msg : String)
deriving DecidableEq, Repr

/-- The message carried by an exception, as `str(e)` yields it. -/
def PyError.message : PyError → String
  | .fileNotFound m => m
  | .notADirectory m => m
  | .codecError m => m

/-- Observable effects of a single-file run: `Image.open`, the `resize`
invocation with the dimensions it receives, and the `save` to a path. -/
inductive SEffect where
  | openImage (path : String)
  | resizeTo (size : ℤ × ℤ)
  | saveFile (path : String)
deriving DecidableEq, Repr

/-- The environment one `downscale_texture` call sees: whether the input
path references an existing file, whether PIL fails to decode it, and the
decoded image otherwise. -/
structure SingleWorld where
  inputExists : Bool
  decodeFails : Bool
  img : PILImage
deriving DecidableEq, Repr

/-- Record of a successful `downscale_texture` run: the original size, the
resized image, the image actually encoded, the resolved output path and the
string the function returns. -/
structure SingleRun where
  originalSize : ℤ × ℤ
  resized : PILImage
  saved : PILImage
  outputFile : FsPath
  returnedPath : String
deriving DecidableEq, Repr

/-- Embedding of `downscale_texture` (src/tools/downscale_texture.py lines
17-79): existence check, decode, dimension calculation, nearest-neighbour
resize, output-path resolution (explicit path verbatim, otherwise the
`{stem}_{size}x{size}{suffix}` sibling), and the save step that keeps the
image as-is for `.png`/`.gif` suffixes and converts mode `"RGBA"` to
`"RGB"` for every other suffix.  The Python default `maintain_aspect=False`
is supplied explicitly by callers that omit it. -/
def downscale_texture (fs : SingleWorld) (input_file : FsPath)
    (output_path : Option FsPath) (target_size : ℕ) (maintain_aspect : Bool) :
    List SEffect × Except PyError SingleRun :=
  if fs.inputExists = false then
    ([], .error (.fileNotFound ("Input file not found: " ++ input_file.render)))
  else if fs.decodeFails then
    ([.openImage input_file.render], .error (.codecError "cannot identify image file"))
  else
    let img := fs.img
    let original_size := (img.width, img.height)
    let new_size := calcNewSize img.width img.height target_size maintain_aspect
    let downscaled := img.resizeNearest new_size
    let output_file :=
      match output_path with
      | none =>
          { parent := input_file.parent,
            stem := input_file.stem ++ "_" ++ toString target_size ++ "x"
                      ++ toString target_size,
            suffix := input_file.suffix }
      | some p => p
    let saved :=
      if strLower output_file.suffix ∈ ([".png", ".gif"] : List String) then
        downscaled
      else if downscaled.mode = "RGBA" then downscaled.convertRGB else downscaled
    ([.openImage input_file.render, .resizeTo new_size, .saveFile output_file.render],
     .ok { originalSize := original_size, resized := downscaled, saved := saved,
           outputFile := output_file, returnedPath := output_file.render })

/-- The fixed extension allow-list of `batch_downscale`. -/
def extensionAllowList : List String := [".png", ".jpg", ".jpeg", ".gif", ".bmp"]

/-- One directory entry as `batch_downscale` observes it: its name split
into stem and suffix, whether it is a regular file, and the per-file
environment a nested `downscale_texture` call would see (decode failure
flag and decoded image). -/
structure BatchFile where
  stem : String
  suffix : String
  isFile : Bool
  decodeFails : Bool
  img : PILImage
deriving DecidableEq, Repr

/-- `file.name`: stem and suffix joined. -/
def BatchFile.name (f : BatchFile) : String := f.stem ++ f.suffix

/-- The environment one `batch_downscale` call sees: whether the input path
is an existing directory and, if so, its direct entries in iteration
order. -/
structure BatchWorld where
  inputIsDir : Bool
  entries : List BatchFile
deriving DecidableEq, Repr

/-- Observable effects of a batch run: the `mkdir(parents, exist_ok)` call,
the no-files report, the processing banner, each invocation of
`downscale_texture` with the arguments it receives, each per-file error
report (file name and message), and the final `succeeded/attempted`
summary with the output directory. -/
inductive BatchEffect where
  | mkdir (path : String) (parents existOk : Bool)
  | printNoFiles (dir : String)
  | printProcessing (count : ℕ)
  | callDownscale (input output : String) (size : ℕ) (maintainAspect : Bool)
  | printFileError (name msg : String)
  | printSummary (succeeded attempted : ℕ) (outDir : String)
deriving DecidableEq, Repr

/-- Output-directory resolution of `batch_downscale`: an explicit directory
verbatim, otherwise `{input_dir}/downscaled_{size}x{size}`. -/
def resolveOutDir (input_dir : String) (output_dir : Option String)
    (target_size : ℕ) : String :=
  match output_dir with
  | none => input_dir ++ "/downscaled_" ++ toString target_size ++ "x"
              ++ toString target_size
  | some d => d

/-- The list comprehension of `batch_downscale`: direct entries that are
regular files whose lowercased suffix is on the allow-list, in discovery
order. -/
def matchingFiles (w : BatchWorld) : List BatchFile :=
  w.entries.filter fun f => f.isFile && decide (strLower f.suffix ∈ extensionAllowList)

/-- The per-file loop of `batch_downscale`: for each file, build the output
path `{out_path}/{stem}{suffix}`, invoke `downscale_texture` on it with an
explicit output path and the Python default `maintain_aspect=False`, append
the returned path on success, and on any exception report the file name and
message and continue with the next file. -/
def processFiles (input_dir out_path : String) (target_size : ℕ) :
    List BatchFile → List BatchEffect × List String
  | [] => ([], [])
  | f :: rest =>
    let img_file : FsPath := ⟨input_dir, f.stem, f.suffix⟩
    let output_file : FsPath := ⟨out_path, f.stem, f.suffix⟩
    let call := BatchEffect.callDownscale img_file.render output_file.render
                  target_size false
    let run := downscale_texture ⟨true, f.decodeFails, f.img⟩ img_file
                 (some output_file) target_size false
    let restResult := processFiles input_dir out_path target_size rest
    match run.2 with
    | .ok r => (call :: restResult.1, r.returnedPath :: restResult.2)
    | .error e =>
        (call :: .printFileError f.name e.message :: restResult.1, restResult.2)

/-- Embedding of `batch_downscale` (src/tools/downscale_texture.py lines
82-139): directory check, output-directory resolution, the
`mkdir(parents=True, exist_ok=True)` call, file discovery, the empty-case
early return, and the per-file loop with its final summary. -/
def batch_downscale (w : BatchWorld) (input_dir : String)
    (output_dir : Option String) (target_size : ℕ) :
    List BatchEffect × Except PyError (List String) :=
  if w.inputIsDir = false then
    ([], .error (.notADirectory ("Not a directory: " ++ input_dir)))
  else
    let out_path := resolveOutDir input_dir output_dir target_size
    let image_files := matchingFiles w
    if image_files.isEmpty then
      ([.mkdir out_path true true, .printNoFiles input_dir], .ok [])
    else
      let res := processFiles input_dir out_path target_size image_files
      (.mkdir out_path true true :: .printProcessing image_files.length :: res.1
         ++ [.printSummary res.2.length image_files.length out_path],
       .ok res.2)

/-- The output-path resolution step of `downscale_texture`: an explicit
output path verbatim, otherwise the sibling file
`{stem}_{size}x{size}{suffix}` of the input. -/
def resolveSingleOut (input_file : FsPath) (output_path : Option FsPath)
    (target_size : ℕ) : FsPath :=
  match output_path with
  | none =>
      { parent := input_file.parent,
        stem := input_file.stem ++ "_" ++ toString target_size ++ "x"
                  ++ toString target_size,
        suffix := input_file.suffix }
  | some p => p

/-- The save step of `downscale_texture`: keep the image as-is when the
lowercased output suffix is `.png` or `.gif`, otherwise convert mode
`"RGBA"` to `"RGB"` first. -/
def savedImage (output_file : FsPath) (downscaled : PILImage) : PILImage :=
  if strLower output_file.suffix ∈ ([".png", ".gif"] : List String) then
    downscaled
  else if downscaled.mode = "RGBA" then downscaled.convertRGB else downscaled

/-- Batch fixture: three matching files (one of which fails to decode), a
text file and a subdirectory. -/
def demoBatchWorld : BatchWorld :=
  ⟨true,
   [⟨"a", ".png", true, false, ⟨8, 8, "RGBA"⟩⟩,
    ⟨"b", ".jpg", true, true, ⟨8, 8, "RGB"⟩⟩,
    ⟨"c", ".BMP", true, false, ⟨8, 8, "RGB"⟩⟩,
    ⟨"notes", ".txt", true, false, ⟨8, 8, "RGB"⟩⟩,
    ⟨"sub", "", false, false, ⟨8, 8, "RGB"⟩⟩]⟩

/-- Batch fixture: a single decodable texture. -/
def squareBatchWorld : BatchWorld :=
  ⟨true, [⟨"grass", ".png", true, false, ⟨32, 32, "RGBA"⟩⟩]⟩

/-- Batch fixture: a directory holding no file with a matching suffix. -/
def emptyBatchWorld : BatchWorld :=
  ⟨true, [⟨"notes", ".txt", true, false, ⟨8, 8, "RGB"⟩⟩]⟩

/-- A missing input makes `downscale_texture` raise `FileNotFoundError`
before any effect. -/
theorem downscale_texture_notFound (fs : SingleWorld) (input_file : FsPath)
    (output_path : Option FsPath) (target_size : ℕ) (maintain_aspect : Bool)
    (hex : fs.inputExists = false) :
    downscale_texture fs input_file output_path target_size maintain_aspect =
      ([], .error (.fileNotFound ("Input file not found: " ++ input_file.render))) := by
  unfold downscale_texture
  rw [hex]
  rfl

/-- A decode failure surfaces after the open and before any resize. -/
theorem downscale_texture_decodeFails (fs : SingleWorld) (input_file : FsPath)
    (output_path : Option FsPath) (target_size : ℕ) (maintain_aspect : Bool)
    (hex : fs.inputExists = true) (hdec : fs.decodeFails = true) :
    downscale_texture fs input_file output_path target_size maintain_aspect =
      ([.openImage input_file.render],
       .error (.codecError "cannot identify image file")) := by
  unfold downscale_texture
  rw [hex, hdec]
  rfl

/-- Explicit form of a successful `downscale_texture` run. -/
theorem downscale_texture_ok_form (fs : SingleWorld) (input_file : FsPath)
    (output_path : Option FsPath) (target_size : ℕ) (maintain_aspect : Bool)
    (hex : fs.inputExists = true) (hdec : fs.decodeFails = false) :
    downscale_texture fs input_file output_path target_size maintain_aspect =
      ([.openImage input_file.render,
        .resizeTo (calcNewSize fs.img.width fs.img.height target_size maintain_aspect),
        .saveFile (resolveSingleOut input_file output_path target_size).render],
       .ok { originalSize := (fs.img.width, fs.img.height),
             resized := fs.img.resizeNearest
               (calcNewSize fs.img.width fs.img.height target_size maintain_aspect),
             saved := savedImage (resolveSingleOut input_file output_path target_size)
               (fs.img.resizeNearest
                 (calcNewSize fs.img.width fs.img.height target_size maintain_aspect)),
             outputFile := resolveSingleOut input_file output_path target_size,
             returnedPath := (resolveSingleOut input_file output_path target_size).render }) := by
  unfold downscale_texture resolveSingleOut savedImage
  rw [hex, hdec]
  rfl

theorem log2fuel_spec : ∀ fuel n, 1 ≤ n → n ≤ fuel →
    2 ^ log2fuel fuel n ≤ n ∧ n < 2 ^ (log2fuel fuel n + 1)
  | 0, n, h1, h2 => absurd (le_trans h1 h2) (by norm_num)
  | fuel+1, n, h1, h2 => by
      by_cases h : 2 ≤ n
      · have hrec := log2fuel_spec fuel (n / 2) (by omega) (by omega)
        simp only [log2fuel, if_pos h]
        obtain ⟨hlo, hhi⟩ := hrec
        constructor
        · calc 2 ^ (log2fuel fuel (n / 2) + 1)
              = 2 * 2 ^ (log2fuel fuel (n / 2)) := by ring
            _ ≤ 2 * (n / 2) := by omega
            _ ≤ n := by omega
        · have : n < 2 * 2 ^ (log2fuel fuel (n / 2) + 1) := by omega
          calc n < 2 * 2 ^ (log2fuel fuel (n / 2) + 1) := this
            _ = 2 ^ (log2fuel fuel (n / 2) + 1 + 1) := by ring
      · have hn : n = 1 := by omega
        subst hn
        simp [log2fuel]

/-- natLog2 brackets its argument between consecutive powers of two. -/
theorem natLog2_spec (n : ℕ) (h : 1 ≤ n) :
    2 ^ natLog2 n ≤ n ∧ n < 2 ^ (natLog2 n + 1) :=
  log2fuel_spec n n h le_rfl

/-- Euclidean division of integers is the floor of the exact quotient. -/
theorem ediv_floor_bounds (a b : ℤ) (hb : 0 < b) :
    ((a.ediv b : ℤ) : ℚ) ≤ (a : ℚ) / (b : ℚ) ∧
    (a : ℚ) / (b : ℚ) < ((a.ediv b : ℤ) : ℚ) + 1 := by
  have hmod : b * a.ediv b + a.emod b = a := Int.ediv_add_emod a b
  have h0 : (0 : ℤ) ≤ a.emod b := Int.emod_nonneg a (ne_of_gt hb)
  have h1 : a.emod b < b := Int.emod_lt_of_pos a hb
  have hbQ : (0 : ℚ) < (b : ℚ) := by exact_mod_cast hb
  constructor
  · rw [le_div_iff₀ hbQ]
    have : ((a.ediv b : ℤ) : ℚ) * (b : ℚ) = ((b * a.ediv b : ℤ) : ℚ) := by
      push_cast; ring
    rw [this]
    exact_mod_cast by omega
  · rw [div_lt_iff₀ hbQ]
    have : (((a.ediv b : ℤ) : ℚ) + 1) * (b : ℚ) = ((b * a.ediv b + b : ℤ) : ℚ) := by
      push_cast; ring
    rw [this]
    exact_mod_cast by omega

/-- Round-half-to-even lands within half a unit of the exact quotient. -/
theorem rnear_half (a b : ℤ) (hb : 0 < b) :
    |((rnear a b : ℤ) : ℚ) - (a : ℚ) / (b : ℚ)| ≤ 1 / 2 := by
  obtain ⟨hlo, hhi⟩ := ediv_floor_bounds a b hb
  have hmod : b * a.ediv b + a.emod b = a := Int.ediv_add_emod a b
  have h0 : (0 : ℤ) ≤ a.emod b := Int.emod_nonneg a (ne_of_gt hb)
  have h1 : a.emod b < b := Int.emod_lt_of_pos a hb
  have hbQ : (0 : ℚ) < (b : ℚ) := by exact_mod_cast hb
  have hfrac : (a : ℚ) / (b : ℚ) - ((a.ediv b : ℤ) : ℚ) = ((a.emod b : ℤ) : ℚ) / (b : ℚ) := by
    rw [div_sub' _ _ _ (ne_of_gt hbQ), div_eq_div_iff (ne_of_gt hbQ) (ne_of_gt hbQ)]
    have : (a : ℚ) = (b : ℚ) * ((a.ediv b : ℤ) : ℚ) + ((a.emod b : ℤ) : ℚ) := by
      exact_mod_cast congrArg (fun z : ℤ => (z : ℚ)) hmod.symm
    rw [this]; ring
  unfold rnear
  rcases lt_trichotomy (2 * a.emod b) b with hc | hc | hc
  · rw [if_pos hc]
    rw [abs_sub_comm, abs_of_nonneg (by linarith [hlo])]
    have : ((a.emod b : ℤ) : ℚ) / (b : ℚ) ≤ 1 / 2 := by
      rw [div_le_div_iff₀ hbQ (by norm_num)]
      exact_mod_cast by omega
    linarith [hfrac, this]
  · rw [if_neg (by omega), if_neg (by omega)]
    split
    · rw [abs_sub_comm, abs_of_nonneg (by linarith [hlo])]
      have : ((a.emod b : ℤ) : ℚ) / (b : ℚ) = 1 / 2 := by
        rw [div_eq_div_iff (ne_of_gt hbQ) (by norm_num)]
        exact_mod_cast by omega
      linarith [hfrac, this]
    · rw [abs_of_nonneg (by push_cast; linarith [hhi])]
      have h12 : ((a.emod b : ℤ) : ℚ) / (b : ℚ) = 1 / 2 := by
        rw [div_eq_div_iff (ne_of_gt hbQ) (by norm_num)]
        exact_mod_cast by omega
      push_cast
      linarith [hfrac, h12]
  · rw [if_neg (by omega), if_pos hc]
    rw [abs_of_nonneg (by push_cast; linarith [hhi])]
    have : (1:ℚ) / 2 ≤ ((a.emod b : ℤ) : ℚ) / (b : ℚ) := by
      rw [div_le_div_iff₀ (by norm_num) hbQ]
      exact_mod_cast by omega
    push_cast at hfrac ⊢
    linarith [hfrac, this]

/-- Round-half-to-even of a non-negative quotient is non-negative. -/
theorem rnear_nonneg (a b : ℤ) (ha : 0 ≤ a) (hb : 0 < b) : 0 ≤ rnear a b := by
  have hd : 0 ≤ a.ediv b := Int.ediv_nonneg ha (le_of_lt hb)
  unfold rnear
  dsimp only
  split
  · exact hd
  · split
    · omega
    · split <;> omega

/-- Round-half-to-even is exact on exact multiples. -/
theorem rnear_mul_exact (n b : ℤ) (hb : 0 < b) : rnear (n * b) b = n := by
  have hd : (n * b).ediv b = n := Int.mul_ediv_cancel n (ne_of_gt hb)
  have hm : (n * b).emod b = 0 := Int.mul_emod_left n b
  unfold rnear
  rw [hd, hm]
  rw [if_pos (by omega)]

/-- Scaling numerator and denominator by the two halves of a power of two
divides the value by that power. -/
theorem shift_val (p q s : ℤ) :
    ((p * 2 ^ (max (-s) 0).toNat : ℤ) : ℚ) / ((q * 2 ^ (max s 0).toNat : ℤ) : ℚ)
      = ((p : ℚ) / (q : ℚ)) / (2:ℚ) ^ s := by
  have hA : ((max s 0).toNat : ℤ) = max s 0 := Int.toNat_of_nonneg (le_max_right s 0)
  have hB : ((max (-s) 0).toNat : ℤ) = max (-s) 0 := Int.toNat_of_nonneg (le_max_right (-s) 0)
  have hsum : max s 0 = s + max (-s) 0 := by omega
  have e2 : (2:ℚ) ≠ 0 := by norm_num
  have hcA : (2:ℚ) ^ ((max s 0).toNat) = (2:ℚ) ^ (max s 0) := by
    rw [← zpow_natCast (2:ℚ) (max s 0).toNat, hA]
  have hcB : (2:ℚ) ^ ((max (-s) 0).toNat) = (2:ℚ) ^ (max (-s) 0) := by
    rw [← zpow_natCast (2:ℚ) (max (-s) 0).toNat, hB]
  push_cast
  rw [hcA, hcB, hsum, zpow_add₀ e2, div_div]
  rw [show (q:ℚ) * ((2:ℚ)^s * (2:ℚ)^(max (-s) 0)) = (q:ℚ) * (2:ℚ)^s * (2:ℚ)^(max (-s) 0)
        from by ring]
  exact mul_div_mul_right _ _ (zpow_ne_zero _ e2)

/-- Comparison of a fraction against a power of two, in integers. -/
theorem le_pow2_iff (p q k : ℤ) (hq : 0 < q) :
    (2:ℚ)^k ≤ (p:ℚ)/(q:ℚ) ↔
      q * 2 ^ (max k 0).toNat ≤ p * 2 ^ (max (-k) 0).toNat := by
  have hQpos : (0:ℚ) < ((q * 2 ^ (max k 0).toNat : ℤ) : ℚ) := by
    exact_mod_cast (by positivity : (0:ℤ) < q * 2 ^ (max k 0).toNat)
  have h1 : (2:ℚ)^k ≤ (p:ℚ)/(q:ℚ) ↔ 1 ≤ ((p:ℚ)/(q:ℚ)) / (2:ℚ)^k := by
    rw [le_div_iff₀ (zpow_pos (by norm_num) k), one_mul]
  rw [h1, ← shift_val p q k, le_div_iff₀ hQpos, one_mul, Int.cast_le]

/-- floorLog2 brackets the fraction between consecutive powers of two. -/
theorem floorLog2_spec (p q : ℤ) (hp : 0 < p) (hq : 0 < q) :
    (2:ℚ) ^ floorLog2 p q ≤ (p:ℚ)/(q:ℚ) ∧
    (p:ℚ)/(q:ℚ) < (2:ℚ) ^ (floorLog2 p q + 1) := by
  obtain ⟨hplo, hphi⟩ := natLog2_spec p.toNat (by omega)
  obtain ⟨hqlo, hqhi⟩ := natLog2_spec q.toNat (by omega)
  have hpQ : (0:ℚ) < (p:ℚ) := by exact_mod_cast hp
  have hqQ : (0:ℚ) < (q:ℚ) := by exact_mod_cast hq
  have hpcast : ((p.toNat : ℤ)) = p := Int.toNat_of_nonneg hp.le
  have hqcast : ((q.toNat : ℤ)) = q := Int.toNat_of_nonneg hq.le
  have hpQlo : (2:ℚ) ^ ((natLog2 p.toNat : ℤ)) ≤ (p:ℚ) := by
    rw [zpow_natCast, ← hpcast]
    exact_mod_cast hplo
  have hpQhi : (p:ℚ) < (2:ℚ) ^ ((natLog2 p.toNat : ℤ) + 1) := by
    rw [show ((natLog2 p.toNat : ℤ) + 1) = (((natLog2 p.toNat + 1 : ℕ)) : ℤ) from by push_cast; ring,
        zpow_natCast, ← hpcast]
    exact_mod_cast hphi
  have hqQlo : (2:ℚ) ^ ((natLog2 q.toNat : ℤ)) ≤ (q:ℚ) := by
    rw [zpow_natCast, ← hqcast]
    exact_mod_cast hqlo
  have hqQhi : (q:ℚ) < (2:ℚ) ^ ((natLog2 q.toNat : ℤ) + 1) := by
    rw [show ((natLog2 q.toNat : ℤ) + 1) = (((natLog2 q.toNat + 1 : ℕ)) : ℤ) from by push_cast; ring,
        zpow_natCast, ← hqcast]
    exact_mod_cast hqhi
  unfold floorLog2
  dsimp only
  by_cases hcond : q * 2 ^ (max ((natLog2 p.toNat : ℤ) - (natLog2 q.toNat : ℤ)) 0).toNat ≤
      p * 2 ^ (max (-((natLog2 p.toNat : ℤ) - (natLog2 q.toNat : ℤ))) 0).toNat
  · rw [if_pos hcond]
    refine ⟨(le_pow2_iff p q _ hq).mpr hcond, ?_⟩
    rw [div_lt_iff₀ hqQ]
    calc (p:ℚ) < (2:ℚ) ^ ((natLog2 p.toNat : ℤ) + 1) := hpQhi
      _ = (2:ℚ) ^ ((natLog2 p.toNat : ℤ) - (natLog2 q.toNat : ℤ) + 1)
            * (2:ℚ) ^ ((natLog2 q.toNat : ℤ)) := by
          rw [← zpow_add₀ (by norm_num : (2:ℚ) ≠ 0)]
          congr 1
          ring
      _ ≤ (2:ℚ) ^ ((natLog2 p.toNat : ℤ) - (natLog2 q.toNat : ℤ) + 1) * (q:ℚ) :=
          mul_le_mul_of_nonneg_left hqQlo (le_of_lt (zpow_pos (by norm_num) _))
  · rw [if_neg hcond]
    have hupp : (p:ℚ)/(q:ℚ) <
        (2:ℚ) ^ ((natLog2 p.toNat : ℤ) - (natLog2 q.toNat : ℤ)) :=
      lt_of_not_ge fun hge => hcond ((le_pow2_iff p q _ hq).mp hge)
    constructor
    · rw [le_div_iff₀ hqQ]
      have hstrict : (2:ℚ) ^ ((natLog2 p.toNat : ℤ) - (natLog2 q.toNat : ℤ) - 1) * (q:ℚ) <
          (2:ℚ) ^ ((natLog2 p.toNat : ℤ) - (natLog2 q.toNat : ℤ) - 1)
            * (2:ℚ) ^ ((natLog2 q.toNat : ℤ) + 1) :=
        mul_lt_mul_of_pos_left hqQhi (zpow_pos (by norm_num) _)
      have hcollapse : (2:ℚ) ^ ((natLog2 p.toNat : ℤ) - (natLog2 q.toNat : ℤ) - 1)
            * (2:ℚ) ^ ((natLog2 q.toNat : ℤ) + 1) = (2:ℚ) ^ ((natLog2 p.toNat : ℤ)) := by
        rw [← zpow_add₀ (by norm_num : (2:ℚ) ≠ 0)]
        congr 1
        ring
      exact le_of_lt (lt_of_lt_of_le (hcollapse ▸ hstrict) hpQlo)
    · rw [show (natLog2 p.toNat : ℤ) - (natLog2 q.toNat : ℤ) - 1 + 1
            = (natLog2 p.toNat : ℤ) - (natLog2 q.toNat : ℤ) from by ring]
      exact hupp

/-- One binary64 rounding moves a positive value by at most half a unit in
the last place, keeps the exponent of the rounding step, and yields a
non-negative significand. -/
theorem roundPos_spec (p q : ℤ) (hp : 0 < p) (hq : 0 < q) :
    |(roundPos p q).toRat - (p:ℚ)/(q:ℚ)|
        ≤ (2:ℚ) ^ (max (floorLog2 p q - 52) (-1074)) / 2 ∧
    (roundPos p q).e = max (floorLog2 p q - 52) (-1074) ∧
    0 ≤ (roundPos p q).m := by
  unfold roundPos
  dsimp only
  set s := max (floorLog2 p q - 52) (-1074) with hs
  have hQ : (0:ℤ) < q * 2 ^ (max s 0).toNat := by positivity
  have hP : (0:ℤ) ≤ p * 2 ^ (max (-s) 0).toNat := by positivity
  have hhalf := rnear_half (p * 2 ^ (max (-s) 0).toNat) (q * 2 ^ (max s 0).toNat) hQ
  rw [shift_val p q s] at hhalf
  have hpos : (0:ℚ) < (2:ℚ) ^ s := zpow_pos (by norm_num) s
  refine ⟨?_, rfl, rnear_nonneg _ _ hP hQ⟩
  unfold FloatRep.toRat
  dsimp only
  have key : ((rnear (p * 2 ^ (max (-s) 0).toNat) (q * 2 ^ (max s 0).toNat) : ℤ) : ℚ)
        * (2:ℚ) ^ s - (p:ℚ)/(q:ℚ)
      = (((rnear (p * 2 ^ (max (-s) 0).toNat) (q * 2 ^ (max s 0).toNat) : ℤ) : ℚ)
          - ((p:ℚ)/(q:ℚ)) / (2:ℚ) ^ s) * (2:ℚ) ^ s := by
    rw [sub_mul, div_mul_cancel₀ _ (ne_of_gt hpos)]
  rw [key, abs_mul, abs_of_pos hpos]
  calc |((rnear (p * 2 ^ (max (-s) 0).toNat) (q * 2 ^ (max s 0).toNat) : ℤ) : ℚ)
          - ((p:ℚ)/(q:ℚ)) / (2:ℚ) ^ s| * (2:ℚ) ^ s
      ≤ (1/2) * (2:ℚ) ^ s := mul_le_mul_of_nonneg_right hhalf (le_of_lt hpos)
    _ = (2:ℚ) ^ s / 2 := by ring

/-- In the normal range, binary64 rounding carries relative error at most
2^(-53). -/
theorem roundPos_relErr (p q : ℤ) (hp : 0 < p) (hq : 0 < q)
    (hnormal : (2:ℚ) ^ (-1022 : ℤ) ≤ (p:ℚ)/(q:ℚ)) :
    |(roundPos p q).toRat - (p:ℚ)/(q:ℚ)|
      ≤ ((p:ℚ)/(q:ℚ)) * (2:ℚ) ^ (-53 : ℤ) := by
  obtain ⟨herr, _, _⟩ := roundPos_spec p q hp hq
  obtain ⟨hlo, hhi⟩ := floorLog2_spec p q hp hq
  have he : -1022 ≤ floorLog2 p q := by
    by_contra hcon
    push_neg at hcon
    have h1 : (2:ℚ) ^ (floorLog2 p q + 1) ≤ (2:ℚ) ^ (-1022 : ℤ) :=
      zpow_le_zpow_right₀ (by norm_num) (by omega)
    exact absurd (lt_of_lt_of_le hhi (le_trans h1 hnormal)) (lt_irrefl _)
  have hmax : max (floorLog2 p q - 52) (-1074) = floorLog2 p q - 52 := by omega
  rw [hmax] at herr
  calc |(roundPos p q).toRat - (p:ℚ)/(q:ℚ)|
      ≤ (2:ℚ) ^ (floorLog2 p q - 52) / 2 := herr
    _ = (2:ℚ) ^ floorLog2 p q * (2:ℚ) ^ (-53 : ℤ) := by
        rw [← zpow_add₀ (by norm_num : (2:ℚ) ≠ 0)]
        rw [show floorLog2 p q + -53 = floorLog2 p q - 52 + -1 from by ring,
            zpow_add₀ (by norm_num : (2:ℚ) ≠ 0)]
        norm_num
        ring
    _ ≤ ((p:ℚ)/(q:ℚ)) * (2:ℚ) ^ (-53 : ℤ) :=
        mul_le_mul_of_nonneg_right hlo (le_of_lt (zpow_pos (by norm_num) _))

/-- On positive fractions `fpRound` is `roundPos`. -/
theorem fpRound_pos_eq (p q : ℤ) (hp : 0 < p) : fpRound p q = roundPos p q := by
  rw [fpRound, if_pos hp]

/-- Rounding a non-negative fraction yields a non-negative significand. -/
theorem fpRound_m_nonneg (p q : ℤ) (hp : 0 ≤ p) (hq : 0 < q) : 0 ≤ (fpRound p q).m := by
  rcases lt_or_eq_of_le hp with h | h
  · rw [fpRound_pos_eq p q h]
    exact (roundPos_spec p q h hq).2.2
  · rw [fpRound, if_neg (by omega), if_pos h.symm]

/-- A binary64 value with positive rational value has positive
significand. -/
theorem FloatRep.m_pos_of_toRat_pos (x : FloatRep) (h : 0 < x.toRat) : 0 < x.m := by
  by_contra hcon
  push_neg at hcon
  have hle : x.toRat ≤ 0 := by
    unfold FloatRep.toRat
    exact mul_nonpos_iff.mpr (Or.inr ⟨by exact_mod_cast hcon,
      le_of_lt (zpow_pos (by norm_num) x.e)⟩)
  linarith

/-- Integers below 2^53 convert to binary64 exactly, as CPython converts
an int operand of float multiplication. -/
theorem fpRound_int_exact (n : ℤ) (h1 : 1 ≤ n) (hlt : n < 2 ^ 53) :
    (fpRound n 1).toRat = (n : ℚ) := by
  have hn : 0 < n := by omega
  rw [fpRound_pos_eq n 1 hn]
  obtain ⟨hlo, hhi⟩ := floorLog2_spec n 1 hn one_pos
  rw [Int.cast_one, div_one] at hlo hhi
  have he0 : 0 ≤ floorLog2 n 1 := by
    by_contra hcon
    push_neg at hcon
    have h2 : (2:ℚ) ^ (floorLog2 n 1 + 1) ≤ (2:ℚ) ^ (0:ℤ) :=
      zpow_le_zpow_right₀ (by norm_num) (by omega)
    have h3 : (n:ℚ) < 1 := by
      have := lt_of_lt_of_le hhi h2
      simpa using this
    have : n < 1 := by exact_mod_cast h3
    omega
  have he52 : floorLog2 n 1 ≤ 52 := by
    by_contra hcon
    push_neg at hcon
    have h2 : (2:ℚ) ^ (53:ℤ) ≤ (2:ℚ) ^ (floorLog2 n 1) :=
      zpow_le_zpow_right₀ (by norm_num) (by omega)
    have h3 : ((2 ^ 53 : ℤ) : ℚ) ≤ (n:ℚ) := by
      calc ((2 ^ 53 : ℤ) : ℚ) = (2:ℚ) ^ (53 : ℕ) := by push_cast; norm_num
        _ = (2:ℚ) ^ (53 : ℤ) := by rw [← zpow_natCast]; norm_num
        _ ≤ (2:ℚ) ^ (floorLog2 n 1) := h2
        _ ≤ (n:ℚ) := hlo
    have : (2 ^ 53 : ℤ) ≤ n := by exact_mod_cast h3
    omega
  unfold roundPos
  dsimp only
  rw [show max (floorLog2 n 1 - 52) (-1074) = floorLog2 n 1 - 52 from by omega]
  rw [show max (-(floorLog2 n 1 - 52)) 0 = 52 - floorLog2 n 1 from by omega,
      show max (floorLog2 n 1 - 52) 0 = 0 from by omega]
  simp only [Int.toNat_zero, pow_zero, mul_one]
  rw [show n * 2 ^ ((52 - floorLog2 n 1).toNat)
        = n * 2 ^ ((52 - floorLog2 n 1).toNat) * 1 from (mul_one _).symm,
      rnear_mul_exact _ 1 one_pos]
  unfold FloatRep.toRat
  dsimp only
  push_cast
  rw [← zpow_natCast (2:ℚ) (52 - floorLog2 n 1).toNat,
      Int.toNat_of_nonneg (by omega : (0:ℤ) ≤ 52 - floorLog2 n 1),
      mul_assoc, ← zpow_add₀ (by norm_num : (2:ℚ) ≠ 0),
      show 52 - floorLog2 n 1 + (floorLog2 n 1 - 52) = 0 from by ring,
      zpow_zero, mul_one]

/-- The fraction handed to the rounding step of `fpMul` is the exact
product of the two values. -/
theorem fpMul_val_eq (x y : FloatRep) :
    ((x.m * y.m * 2 ^ (max (x.e + y.e) 0).toNat : ℤ) : ℚ) /
      ((2 ^ (max (-(x.e + y.e)) 0).toNat : ℤ) : ℚ) = x.toRat * y.toRat := by
  have h := shift_val (x.m * y.m) 1 (-(x.e + y.e))
  rw [neg_neg] at h
  rw [show ((1:ℤ) * 2 ^ (max (-(x.e + y.e)) 0).toNat) = 2 ^ (max (-(x.e + y.e)) 0).toNat
        from one_mul _] at h
  rw [h, Int.cast_one, div_one]
  unfold FloatRep.toRat
  rw [div_eq_mul_inv, ← zpow_neg, neg_neg, zpow_add₀ (by norm_num : (2:ℚ) ≠ 0)]
  push_cast
  ring

/-- Binary64 multiplication of positive values in the normal range carries
relative error at most 2^(-53). -/
theorem fpMul_relErr (x y : FloatRep) (hx : 0 < x.m) (hy : 0 < y.m)
    (hnormal : (2:ℚ) ^ (-1022 : ℤ) ≤ x.toRat * y.toRat) :
    |(fpMul x y).toRat - x.toRat * y.toRat|
      ≤ (x.toRat * y.toRat) * (2:ℚ) ^ (-53 : ℤ) := by
  unfold fpMul
  have hp : (0:ℤ) < x.m * y.m * 2 ^ (max (x.e + y.e) 0).toNat := by positivity
  have hq : (0:ℤ) < 2 ^ (max (-(x.e + y.e)) 0).toNat := by positivity
  rw [fpRound_pos_eq _ _ hp]
  have := roundPos_relErr (x.m * y.m * 2 ^ (max (x.e + y.e) 0).toNat)
    (2 ^ (max (-(x.e + y.e)) 0).toNat) hp hq
  rw [fpMul_val_eq x y] at this
  exact this hnormal

/-- Multiplying non-negative binary64 values keeps the significand
non-negative. -/
theorem fpMul_m_nonneg (x y : FloatRep) (hx : 0 ≤ x.m) (hy : 0 ≤ y.m) :
    0 ≤ (fpMul x y).m := by
  unfold fpMul
  exact fpRound_m_nonneg _ _ (by positivity) (by positivity)

/-- On a non-negative binary64 value, Python int() truncation is the
floor of the exact value. -/
theorem fpTrunc_floor (x : FloatRep) (hm : 0 ≤ x.m) : fpTrunc x = ⌊x.toRat⌋ := by
  unfold fpTrunc FloatRep.toRat
  by_cases he : 0 ≤ x.e
  · rw [if_pos he]
    have hval : (x.m : ℚ) * (2:ℚ) ^ x.e = ((x.m * 2 ^ x.e.toNat : ℤ) : ℚ) := by
      push_cast
      rw [← zpow_natCast (2:ℚ) x.e.toNat, Int.toNat_of_nonneg he]
    rw [hval, Int.floor_intCast]
  · rw [if_neg he]
    push_neg at he
    have hk : (((-x.e).toNat : ℤ)) = -x.e := Int.toNat_of_nonneg (by omega)
    have hpow : (0:ℤ) < 2 ^ (-x.e).toNat := by positivity
    have htdiv : x.m.tdiv (2 ^ (-x.e).toNat) = x.m.ediv (2 ^ (-x.e).toNat) := by
      obtain ⟨mn, hmn⟩ : ∃ mn : ℕ, x.m = (mn : ℤ) := ⟨x.m.toNat, (Int.toNat_of_nonneg hm).symm⟩
      rw [hmn, show ((2:ℤ) ^ (-x.e).toNat) = ((2 ^ (-x.e).toNat : ℕ) : ℤ) from by push_cast; rfl]
      rfl
    have hval : (x.m : ℚ) * (2:ℚ) ^ x.e = (x.m : ℚ) / ((2 ^ (-x.e).toNat : ℤ) : ℚ) := by
      push_cast
      rw [← zpow_natCast (2:ℚ) (-x.e).toNat, hk, div_eq_mul_inv, ← zpow_neg, neg_neg]
    rw [hval, htdiv]
    obtain ⟨hlb, hub⟩ := ediv_floor_bounds x.m (2 ^ (-x.e).toNat) hpow
    exact (Int.floor_eq_iff.mpr ⟨hlb, hub⟩).symm

/-- The exact ratio target/max is in the binary64 normal range for
dimensions up to 2^53. -/
theorem ratio_normal (M : ℤ) (T : ℕ) (hM1 : 1 ≤ M) (hMlt : M < 2 ^ 53) (hT : 1 ≤ T) :
    (2:ℚ) ^ (-1022:ℤ) ≤ ((T:ℤ):ℚ) / (M:ℚ) := by
  have hMpos : (0:ℤ) < M := by omega
  have hMQ : (0:ℚ) < (M:ℚ) := by exact_mod_cast hMpos
  have hTQ1 : (1:ℚ) ≤ ((T:ℤ):ℚ) := by exact_mod_cast hT
  have h2_53 : ((2 ^ 53 : ℤ) : ℚ) = (2:ℚ) ^ (53 : ℤ) := by
    push_cast
    norm_num
  have hMQle : (M:ℚ) ≤ (2:ℚ) ^ (53:ℤ) := by
    rw [← h2_53]
    exact_mod_cast hMlt.le
  rw [le_div_iff₀ hMQ]
  calc (2:ℚ) ^ (-1022:ℤ) * (M:ℚ)
      ≤ (2:ℚ) ^ (-1022:ℤ) * (2:ℚ) ^ (53:ℤ) :=
        mul_le_mul_of_nonneg_left hMQle (le_of_lt (zpow_pos (by norm_num) _))
    _ = (2:ℚ) ^ (-969:ℤ) := by
        rw [← zpow_add₀ (by norm_num : (2:ℚ) ≠ 0)]
        norm_num
    _ ≤ (2:ℚ) ^ (0:ℤ) := zpow_le_zpow_right₀ (by norm_num) (by norm_num)
    _ = 1 := zpow_zero 2
    _ ≤ ((T:ℤ):ℚ) := hTQ1

/-- The full binary64 chain of the dominant dimension — divide, convert,
multiply, truncate, floor at 1 — lands in {T-1, T} for dimensions below
2^53 and targets up to 2^51. -/
theorem dominant_float_bound (M : ℤ) (T : ℕ) (hM1 : 1 ≤ M) (hMlt : M < 2 ^ 53)
    (hT : 1 ≤ T) (hTle : T ≤ 2 ^ 51) :
    (T:ℤ) - 1 ≤ max 1 (fpTrunc (fpMul (fpRound M 1) (fpRound (T:ℤ) M))) ∧
    max 1 (fpTrunc (fpMul (fpRound M 1) (fpRound (T:ℤ) M))) ≤ (T:ℤ) := by
  have hMpos : (0:ℤ) < M := by omega
  have hTpos : (0:ℤ) < (T:ℤ) := by exact_mod_cast hT
  have hMQ : (0:ℚ) < (M:ℚ) := by exact_mod_cast hMpos
  have hTQ : (0:ℚ) < ((T:ℤ):ℚ) := by exact_mod_cast hTpos
  have hTQ1 : (1:ℚ) ≤ ((T:ℤ):ℚ) := by exact_mod_cast hT
  have h2_53 : ((2 ^ 53 : ℤ) : ℚ) = (2:ℚ) ^ (53 : ℤ) := by
    push_cast
    norm_num
  have hMQle : (M:ℚ) ≤ (2:ℚ) ^ (53:ℤ) := by
    rw [← h2_53]
    exact_mod_cast hMlt.le
  have hT51 : ((T:ℤ):ℚ) ≤ (2:ℚ) ^ (51:ℤ) := by
    have : ((T:ℤ):ℚ) ≤ (((2 ^ 51 : ℕ) : ℤ) : ℚ) := by exact_mod_cast hTle
    calc ((T:ℤ):ℚ) ≤ (((2 ^ 51 : ℕ) : ℤ) : ℚ) := this
      _ = (2:ℚ) ^ (51:ℤ) := by push_cast; norm_num
  have hnormal_a : (2:ℚ) ^ (-1022:ℤ) ≤ ((T:ℤ):ℚ) / (M:ℚ) :=
    ratio_normal M T hM1 hMlt hT
  -- the rounded ratio
  have hratio_err : |(fpRound (T:ℤ) M).toRat - ((T:ℤ):ℚ) / (M:ℚ)|
      ≤ (((T:ℤ):ℚ) / (M:ℚ)) * (2:ℚ) ^ (-53:ℤ) := by
    rw [fpRound_pos_eq (T:ℤ) M hTpos]
    exact roundPos_relErr (T:ℤ) M hTpos hMpos hnormal_a
  have ha : (0:ℚ) < ((T:ℤ):ℚ) / (M:ℚ) := div_pos hTQ hMQ
  have hc_lt1 : (2:ℚ) ^ (-53:ℤ) < 1 := by norm_num
  have hc_pos : (0:ℚ) < (2:ℚ) ^ (-53:ℤ) := zpow_pos (by norm_num) _
  have hratio_pos : (0:ℚ) < (fpRound (T:ℤ) M).toRat := by
    obtain ⟨h1, h2⟩ := abs_le.mp hratio_err
    nlinarith
  have hratio_m : 0 < (fpRound (T:ℤ) M).m :=
    FloatRep.m_pos_of_toRat_pos _ hratio_pos
  -- exact conversion of M
  have hxM : (fpRound M 1).toRat = (M:ℚ) := fpRound_int_exact M hM1 hMlt
  have hxM_m : 0 < (fpRound M 1).m :=
    FloatRep.m_pos_of_toRat_pos _ (hxM ▸ hMQ)
  -- the exact product is M * ratio, within T * 2^-53 of T
  have hMa : (M:ℚ) * (((T:ℤ):ℚ) / (M:ℚ)) = ((T:ℤ):ℚ) := by
    field_simp
  have hprod_err : |(M:ℚ) * (fpRound (T:ℤ) M).toRat - ((T:ℤ):ℚ)|
      ≤ ((T:ℤ):ℚ) * (2:ℚ) ^ (-53:ℤ) := by
    have hrw : (M:ℚ) * (fpRound (T:ℤ) M).toRat - ((T:ℤ):ℚ)
        = (M:ℚ) * ((fpRound (T:ℤ) M).toRat - ((T:ℤ):ℚ) / (M:ℚ)) := by
      rw [mul_sub, hMa]
    rw [hrw, abs_mul, abs_of_pos hMQ]
    calc (M:ℚ) * |(fpRound (T:ℤ) M).toRat - ((T:ℤ):ℚ) / (M:ℚ)|
        ≤ (M:ℚ) * ((((T:ℤ):ℚ) / (M:ℚ)) * (2:ℚ) ^ (-53:ℤ)) :=
          mul_le_mul_of_nonneg_left hratio_err hMQ.le
      _ = ((T:ℤ):ℚ) * (2:ℚ) ^ (-53:ℤ) := by rw [← mul_assoc, hMa]
  -- bounds needed for the second rounding
  have hprod_lo : ((T:ℤ):ℚ) - ((T:ℤ):ℚ) * (2:ℚ) ^ (-53:ℤ)
      ≤ (M:ℚ) * (fpRound (T:ℤ) M).toRat := by
    obtain ⟨h1, h2⟩ := abs_le.mp hprod_err
    linarith
  have hprod_hi : (M:ℚ) * (fpRound (T:ℤ) M).toRat
      ≤ ((T:ℤ):ℚ) + ((T:ℤ):ℚ) * (2:ℚ) ^ (-53:ℤ) := by
    obtain ⟨h1, h2⟩ := abs_le.mp hprod_err
    linarith
  have hTc_le : ((T:ℤ):ℚ) * (2:ℚ) ^ (-53:ℤ) ≤ ((T:ℤ):ℚ) :=
    mul_le_of_le_one_right hTQ.le hc_lt1.le
  have hc53 : (2:ℚ) ^ (-53:ℤ) = 1/9007199254740992 := by norm_num
  have hnormal_prod : (2:ℚ) ^ (-1022:ℤ) ≤ (fpRound M 1).toRat * (fpRound (T:ℤ) M).toRat := by
    rw [hxM]
    have h12 : (2:ℚ) ^ (-1022:ℤ) ≤ 1/2 := by norm_num
    have hhalf : (1:ℚ)/2 ≤ (M:ℚ) * (fpRound (T:ℤ) M).toRat := by
      rw [hc53] at hprod_lo
      linarith
    exact le_trans h12 hhalf
  have hy_err : |(fpMul (fpRound M 1) (fpRound (T:ℤ) M)).toRat
        - (fpRound M 1).toRat * (fpRound (T:ℤ) M).toRat|
      ≤ ((fpRound M 1).toRat * (fpRound (T:ℤ) M).toRat) * (2:ℚ) ^ (-53:ℤ) :=
    fpMul_relErr _ _ hxM_m hratio_m hnormal_prod
  rw [hxM] at hy_err
  -- total error below 3/4
  have hprod_2T : (M:ℚ) * (fpRound (T:ℤ) M).toRat ≤ 2 * ((T:ℤ):ℚ) := by linarith
  have hy_err2 : |(fpMul (fpRound M 1) (fpRound (T:ℤ) M)).toRat
        - (M:ℚ) * (fpRound (T:ℤ) M).toRat|
      ≤ 2 * ((T:ℤ):ℚ) * (2:ℚ) ^ (-53:ℤ) := by
    calc |(fpMul (fpRound M 1) (fpRound (T:ℤ) M)).toRat
          - (M:ℚ) * (fpRound (T:ℤ) M).toRat|
        ≤ ((M:ℚ) * (fpRound (T:ℤ) M).toRat) * (2:ℚ) ^ (-53:ℤ) := hy_err
      _ ≤ 2 * ((T:ℤ):ℚ) * (2:ℚ) ^ (-53:ℤ) :=
          mul_le_mul_of_nonneg_right hprod_2T hc_pos.le
  have htotal : |(fpMul (fpRound M 1) (fpRound (T:ℤ) M)).toRat - ((T:ℤ):ℚ)|
      ≤ 3 * (((T:ℤ):ℚ) * (2:ℚ) ^ (-53:ℤ)) := by
    calc |(fpMul (fpRound M 1) (fpRound (T:ℤ) M)).toRat - ((T:ℤ):ℚ)|
        ≤ |(fpMul (fpRound M 1) (fpRound (T:ℤ) M)).toRat
            - (M:ℚ) * (fpRound (T:ℤ) M).toRat|
          + |(M:ℚ) * (fpRound (T:ℤ) M).toRat - ((T:ℤ):ℚ)| := abs_sub_le _ _ _
      _ ≤ 2 * ((T:ℤ):ℚ) * (2:ℚ) ^ (-53:ℤ) + ((T:ℤ):ℚ) * (2:ℚ) ^ (-53:ℤ) := by
          linarith [hy_err2, hprod_err]
      _ = 3 * (((T:ℤ):ℚ) * (2:ℚ) ^ (-53:ℤ)) := by ring
  have h34 : 3 * (((T:ℤ):ℚ) * (2:ℚ) ^ (-53:ℤ)) ≤ 3/4 := by
    have hTc51 : ((T:ℤ):ℚ) * (2:ℚ) ^ (-53:ℤ) ≤ (2:ℚ) ^ (51:ℤ) * (2:ℚ) ^ (-53:ℤ) :=
      mul_le_mul_of_nonneg_right hT51 hc_pos.le
    have : (2:ℚ) ^ (51:ℤ) * (2:ℚ) ^ (-53:ℤ) = 1/4 := by
      rw [← zpow_add₀ (by norm_num : (2:ℚ) ≠ 0)]
      norm_num
    linarith
  obtain ⟨hylo, hyhi⟩ := abs_le.mp htotal
  rw [hc53] at hylo hyhi h34
  -- the truncation is the floor of the non-negative double
  have hym : 0 ≤ (fpMul (fpRound M 1) (fpRound (T:ℤ) M)).m :=
    fpMul_m_nonneg _ _ hxM_m.le hratio_m.le
  rw [fpTrunc_floor _ hym]
  have hfloor_le : ⌊(fpMul (fpRound M 1) (fpRound (T:ℤ) M)).toRat⌋ ≤ (T:ℤ) := by
    have hlt : (fpMul (fpRound M 1) (fpRound (T:ℤ) M)).toRat < (((T:ℤ) + 1 : ℤ) : ℚ) := by
      have hc : ((((T:ℤ) + 1 : ℤ)) : ℚ) = ((T:ℤ):ℚ) + 1 := by push_cast; ring
      rw [hc]
      linarith
    have := Int.floor_lt.mpr hlt
    omega
  have hfloor_ge : (T:ℤ) - 1 ≤ ⌊(fpMul (fpRound M 1) (fpRound (T:ℤ) M)).toRat⌋ := by
    apply Int.le_floor.mpr
    have hc : ((((T:ℤ) - 1 : ℤ)) : ℚ) = ((T:ℤ):ℚ) - 1 := by push_cast; ring
    rw [hc]
    linarith
  constructor
  · exact le_trans hfloor_ge (le_max_right 1 _)
  · exact max_le (by exact_mod_cast hT) hfloor_le

set_option maxRecDepth 8000 in
/-- Claim C6 (amended): with `maintain_aspect = true`, original dimensions
below 2^53 and a target size of at most 2^51, the dominant (larger)
original dimension's resolved value is `max 1` of the truncated binary64
computation, which lies within {target_size - 1, target_size} (the float
rounding can lose exactly one, e.g. 15 for a 49-dominant image at target
16), and both resolved dimensions are at least 1. -/
theorem C6_dominant_dimension (w0 h0 : ℤ) (target_size : ℕ)
    (hw : 1 ≤ w0) (hh : 1 ≤ h0) (hT : 1 ≤ target_size)
    (hwlt : w0 < 2 ^ 53) (hhlt : h0 < 2 ^ 53) (hTle : target_size ≤ 2 ^ 51) :
    (h0 ≤ w0 →
      (target_size : ℤ) - 1 ≤ (calcNewSize w0 h0 target_size true).1 ∧
      (calcNewSize w0 h0 target_size true).1 ≤ (target_size : ℤ)) ∧
    (w0 ≤ h0 →
      (target_size : ℤ) - 1 ≤ (calcNewSize w0 h0 target_size true).2 ∧
      (calcNewSize w0 h0 target_size true).2 ≤ (target_size : ℤ)) ∧
    1 ≤ (calcNewSize w0 h0 target_size true).1 ∧
    1 ≤ (calcNewSize w0 h0 target_size true).2 := by
  have hfst : (calcNewSize w0 h0 target_size true).1
      = max 1 (fpTrunc (fpMul (fpRound w0 1)
          (fpRound (target_size : ℤ) (max w0 h0)))) := rfl
  have hsnd : (calcNewSize w0 h0 target_size true).2
      = max 1 (fpTrunc (fpMul (fpRound h0 1)
          (fpRound (target_size : ℤ) (max w0 h0)))) := rfl
  refine ⟨?_, ?_, ?_, ?_⟩
  · intro hle
    rw [hfst, max_eq_left hle]
    exact dominant_float_bound w0 target_size hw hwlt hT hTle
  · intro hle
    rw [hsnd, max_eq_right hle]
    exact dominant_float_bound h0 target_size hh hhlt hT hTle
  · rw [hfst]
    exact le_max_left 1 _
  · rw [hsnd]
    exact le_max_left 1 _

set_option maxRecDepth 8000 in
/-- Claim C6 counterexample: for original size (49, 20) at target size 16
the dominant dimension resolves to 15, not to the target size 16 the claim
asserts. -/
theorem C6_counterexample :
    (calcNewSize 49 20 16 true).1 = 15 ∧ (calcNewSize 49 20 16 true).1 ≠ 16 := by
  have h1 : (calcNewSize 49 20 16 true).1 = 15 := by decide
  refine ⟨h1, ?_⟩
  rw [h1]
  decide

set_option maxRecDepth 8000 in
/-- Claim C6 witness at the extreme original size (1, 1000) with target
size 16: the resolved size is (1, 16), the dominant dimension within
{15, 16} and the other floored up to 1. -/
theorem C6_dominant_dimension_witness :
    calcNewSize 1 1000 16 true = (1, 16) ∧
    (((1:ℤ) ≤ 1000 →
      ((16:ℕ) : ℤ) - 1 ≤ (calcNewSize 1 1000 16 true).2 ∧
      (calcNewSize 1 1000 16 true).2 ≤ ((16:ℕ) : ℤ)) ∧
     1 ≤ (calcNewSize 1 1000 16 true).1 ∧
     1 ≤ (calcNewSize 1 1000 16 true).2) :=
  ⟨by decide,
   (C6_dominant_dimension 1 1000 16 (by norm_num) (by norm_num) (by norm_num)
      (by norm_num) (by norm_num) (by norm_num)).2⟩

/-- Claim C3: with `maintain_aspect = false`, the dimension calculation
yields exactly (target_size, target_size) for every original size, and a
successful run passes exactly those dimensions to the resize primitive. -/
theorem C3_square_forcing (fs : SingleWorld) (input_file : FsPath)
    (output_path : Option FsPath) (target_size : ℕ)
    (hex : fs.inputExists = true) (hdec : fs.decodeFails = false) :
    calcNewSize fs.img.width fs.img.height target_size false
        = ((target_size : ℤ), (target_size : ℤ)) ∧
    SEffect.resizeTo ((target_size : ℤ), (target_size : ℤ)) ∈
      (downscale_texture fs input_file output_path target_size false).1 := by
  refine ⟨rfl, ?_⟩
  rw [downscale_texture_ok_form fs input_file output_path target_size false hex hdec]
  simp [calcNewSize]

/-- Claim C3 witness on a 100x50 image at target size 16. -/
theorem C3_square_forcing_witness :
    calcNewSize (100 : ℤ) (50 : ℤ) 16 false = ((16 : ℤ), (16 : ℤ)) ∧
    SEffect.resizeTo ((16 : ℤ), (16 : ℤ)) ∈
      (downscale_texture ⟨true, false, ⟨100, 50, "RGB"⟩⟩ ⟨"d", "i", ".png"⟩
        none 16 false).1 :=
  C3_square_forcing ⟨true, false, ⟨100, 50, "RGB"⟩⟩ ⟨"d", "i", ".png"⟩ none 16 rfl rfl

/-- Claim C7: in single mode with no explicit output path the resolved
output file is the sibling `{stem}_{size}x{size}{suffix}` of the input,
preserving the suffix verbatim (hence its case); an explicit output path is
used verbatim. -/
theorem C7_single_output_naming (fs : SingleWorld) (input_file explicit : FsPath)
    (target_size : ℕ) (maintain_aspect : Bool) (r1 r2 : SingleRun)
    (h1 : (downscale_texture fs input_file none target_size maintain_aspect).2
            = .ok r1)
    (h2 : (downscale_texture fs input_file (some explicit) target_size
            maintain_aspect).2 = .ok r2) :
    r1.outputFile =
      { parent := input_file.parent,
        stem := input_file.stem ++ "_" ++ toString target_size ++ "x"
                  ++ toString target_size,
        suffix := input_file.suffix } ∧
    r2.outputFile = explicit := by
  cases hex : fs.inputExists with
  | false =>
      rw [downscale_texture_notFound fs input_file none target_size maintain_aspect hex] at h1
      simp at h1
  | true =>
      cases hdec : fs.decodeFails with
      | true =>
          rw [downscale_texture_decodeFails fs input_file none target_size
                maintain_aspect hex hdec] at h1
          simp at h1
      | false =>
          rw [downscale_texture_ok_form fs input_file none target_size
                maintain_aspect hex hdec] at h1
          rw [downscale_texture_ok_form fs input_file (some explicit) target_size
                maintain_aspect hex hdec] at h2
          simp only [Except.ok.injEq] at h1 h2
          subst h1
          subst h2
          exact ⟨rfl, rfl⟩

/-- Claim C7 witness: `photo.JPG` at size 16 resolves to
`photo_16x16.JPG` (extension case preserved), and an explicit output path
is taken verbatim. -/
theorem C7_single_output_naming_witness :
    (downscale_texture ⟨true, false, ⟨64, 64, "RGBA"⟩⟩ ⟨"d", "photo", ".JPG"⟩
        none 16 false).2
      = .ok ⟨(64, 64), ⟨16, 16, "RGBA"⟩, ⟨16, 16, "RGB"⟩,
             ⟨"d", "photo_16x16", ".JPG"⟩, "d/photo_16x16.JPG"⟩ ∧
    (downscale_texture ⟨true, false, ⟨64, 64, "RGBA"⟩⟩ ⟨"d", "photo", ".JPG"⟩
        (some ⟨"e", "out", ".png"⟩) 16 false).2
      = .ok ⟨(64, 64), ⟨16, 16, "RGBA"⟩, ⟨16, 16, "RGBA"⟩,
             ⟨"e", "out", ".png"⟩, "e/out.png"⟩ ∧
    (⟨(64, 64), ⟨16, 16, "RGBA"⟩, ⟨16, 16, "RGB"⟩,
      ⟨"d", "photo_16x16", ".JPG"⟩, "d/photo_16x16.JPG"⟩ : SingleRun).outputFile
      = ⟨"d", "photo" ++ "_" ++ toString 16 ++ "x" ++ toString 16, ".JPG"⟩ ∧
    (⟨(64, 64), ⟨16, 16, "RGBA"⟩, ⟨16, 16, "RGBA"⟩,
      ⟨"e", "out", ".png"⟩, "e/out.png"⟩ : SingleRun).outputFile
      = ⟨"e", "out", ".png"⟩ :=
  ⟨rfl, rfl,
   (C7_single_output_naming ⟨true, false, ⟨64, 64, "RGBA"⟩⟩ ⟨"d", "photo", ".JPG"⟩
      ⟨"e", "out", ".png"⟩ 16 false _ _ rfl rfl).1,
   (C7_single_output_naming ⟨true, false, ⟨64, 64, "RGBA"⟩⟩ ⟨"d", "photo", ".JPG"⟩
      ⟨"e", "out", ".png"⟩ 16 false _ _ rfl rfl).2⟩

/-- Claim C4: for every image saved by `downscale_texture`, a resolved
output suffix that lowercases to `.png` or `.gif` keeps the resized image
(and so any alpha channel) untouched, while every other suffix flattens an
alpha-carrying (mode `"RGBA"`) image to the 3-channel `"RGB"` mode before
encoding and leaves alpha-free images untouched. -/
theorem C4_alpha_policy (fs : SingleWorld) (input_file : FsPath)
    (output_path : Option FsPath) (target_size : ℕ) (maintain_aspect : Bool)
    (r : SingleRun)
    (h : (downscale_texture fs input_file output_path target_size
            maintain_aspect).2 = .ok r) :
    (strLower r.outputFile.suffix ∈ ([".png", ".gif"] : List String) →
        r.saved = r.resized) ∧
    (strLower r.outputFile.suffix ∉ ([".png", ".gif"] : List String) →
        (r.resized.mode = "RGBA" → r.saved = r.resized.convertRGB) ∧
        (r.resized.mode ≠ "RGBA" → r.saved = r.resized)) := by
  cases hex : fs.inputExists with
  | false =>
      rw [downscale_texture_notFound fs input_file output_path target_size
            maintain_aspect hex] at h
      simp at h
  | true =>
      cases hdec : fs.decodeFails with
      | true =>
          rw [downscale_texture_decodeFails fs input_file output_path target_size
                maintain_aspect hex hdec] at h
          simp at h
      | false =>
          rw [downscale_texture_ok_form fs input_file output_path target_size
                maintain_aspect hex hdec] at h
          simp only [Except.ok.injEq] at h
          subst h
          constructor
          · intro hmem
            simp only [savedImage]
            rw [if_pos hmem]
          · intro hmem
            constructor
            · intro hmode
              simp only [savedImage]
              rw [if_neg hmem, if_pos hmode]
            · intro hmode
              simp only [savedImage]
              rw [if_neg hmem, if_neg hmode]

/-- Claim C4 witness: an RGBA image saved with suffix `.jpg` is flattened
to RGB, and the same image saved with suffix `.png` is kept as-is. -/
theorem C4_alpha_policy_witness :
    (downscale_texture ⟨true, false, ⟨10, 20, "RGBA"⟩⟩ ⟨"t", "tex", ".jpg"⟩
        none 8 false).2
      = .ok ⟨(10, 20), ⟨8, 8, "RGBA"⟩, ⟨8, 8, "RGB"⟩,
             ⟨"t", "tex_8x8", ".jpg"⟩, "t/tex_8x8.jpg"⟩ ∧
    (⟨(10, 20), ⟨8, 8, "RGBA"⟩, ⟨8, 8, "RGB"⟩,
      ⟨"t", "tex_8x8", ".jpg"⟩, "t/tex_8x8.jpg"⟩ : SingleRun).saved
      = (⟨(10, 20), ⟨8, 8, "RGBA"⟩, ⟨8, 8, "RGB"⟩,
         ⟨"t", "tex_8x8", ".jpg"⟩, "t/tex_8x8.jpg"⟩ : SingleRun).resized.convertRGB ∧
    (downscale_texture ⟨true, false, ⟨10, 20, "RGBA"⟩⟩ ⟨"t", "tex", ".png"⟩
        none 8 false).2
      = .ok ⟨(10, 20), ⟨8, 8, "RGBA"⟩, ⟨8, 8, "RGBA"⟩,
             ⟨"t", "tex_8x8", ".png"⟩, "t/tex_8x8.png"⟩ ∧
    (⟨(10, 20), ⟨8, 8, "RGBA"⟩, ⟨8, 8, "RGBA"⟩,
      ⟨"t", "tex_8x8", ".png"⟩, "t/tex_8x8.png"⟩ : SingleRun).saved
      = (⟨(10, 20), ⟨8, 8, "RGBA"⟩, ⟨8, 8, "RGBA"⟩,
         ⟨"t", "tex_8x8", ".png"⟩, "t/tex_8x8.png"⟩ : SingleRun).resized :=
  ⟨rfl,
   ((C4_alpha_policy ⟨true, false, ⟨10, 20, "RGBA"⟩⟩ ⟨"t", "tex", ".jpg"⟩
       none 8 false _ rfl).2 (by decide)).1 rfl,
   rfl,
   (C4_alpha_policy ⟨true, false, ⟨10, 20, "RGBA"⟩⟩ ⟨"t", "tex", ".png"⟩
       none 8 false _ rfl).1 (by decide)⟩

/-- Claim C8: in single-file mode `downscale_texture` raises
`FileNotFoundError` exactly when the input path does not reference an
existing file, and in that case the run performs no effect at all: no
image is opened, resized or written. -/
theorem C8_missing_input (fs : SingleWorld) (input_file : FsPath)
    (output_path : Option FsPath) (target_size : ℕ) (maintain_aspect : Bool) :
    ((∃ msg, (downscale_texture fs input_file output_path target_size
          maintain_aspect).2 = .error (.fileNotFound msg))
        ↔ fs.inputExists = false) ∧
    (fs.inputExists = false →
      downscale_texture fs input_file output_path target_size maintain_aspect
        = ([], .error (.fileNotFound
            ("Input file not found: " ++ input_file.render)))) := by
  cases hex : fs.inputExists with
  | false =>
      refine ⟨⟨fun _ => rfl, fun _ => ?_⟩,
              fun _ => downscale_texture_notFound _ _ _ _ _ hex⟩
      exact ⟨"Input file not found: " ++ input_file.render, by
        rw [downscale_texture_notFound _ _ _ _ _ hex]⟩
  | true =>
      constructor
      · constructor
        · rintro ⟨msg, hmsg⟩
          cases hdec : fs.decodeFails with
          | true =>
              rw [downscale_texture_decodeFails _ _ _ _ _ hex hdec] at hmsg
              simp at hmsg
          | false =>
              rw [downscale_texture_ok_form _ _ _ _ _ hex hdec] at hmsg
              simp at hmsg
        · intro hcontra
          simp at hcontra
      · intro hcontra
        simp at hcontra

/-- Claim C8 witness: a missing input file at a concrete path yields the
`FileNotFoundError` with its message and an empty effect trace. -/
theorem C8_missing_input_witness :
    downscale_texture ⟨false, false, ⟨1, 1, "RGB"⟩⟩ ⟨"d", "x", ".png"⟩ none 16 false
      = ([], .error (.fileNotFound ("Input file not found: " ++
          FsPath.render ⟨"d", "x", ".png"⟩))) :=
  (C8_missing_input ⟨false, false, ⟨1, 1, "RGB"⟩⟩ ⟨"d", "x", ".png"⟩
    none 16 false).2 rfl

/-- Loop step on a file that decodes: the invocation is recorded and the
output path is collected. -/
theorem processFiles_cons_ok (input_dir out_path : String) (target_size : ℕ)
    (f : BatchFile) (rest : List BatchFile) (hd : f.decodeFails = false) :
    processFiles input_dir out_path target_size (f :: rest) =
      (BatchEffect.callDownscale (input_dir ++ "/" ++ f.stem ++ f.suffix)
          (out_path ++ "/" ++ f.stem ++ f.suffix) target_size false
        :: (processFiles input_dir out_path target_size rest).1,
       (out_path ++ "/" ++ f.stem ++ f.suffix)
        :: (processFiles input_dir out_path target_size rest).2) := by
  simp only [processFiles]
  rw [downscale_texture_ok_form ⟨true, f.decodeFails, f.img⟩
        ⟨input_dir, f.stem, f.suffix⟩ (some ⟨out_path, f.stem, f.suffix⟩)
        target_size false rfl hd]
  rfl

/-- Loop step on a file that fails to decode: the invocation and the error
report are recorded, nothing is collected, and the loop continues. -/
theorem processFiles_cons_err (input_dir out_path : String) (target_size : ℕ)
    (f : BatchFile) (rest : List BatchFile) (hd : f.decodeFails = true) :
    processFiles input_dir out_path target_size (f :: rest) =
      (BatchEffect.callDownscale (input_dir ++ "/" ++ f.stem ++ f.suffix)
          (out_path ++ "/" ++ f.stem ++ f.suffix) target_size false
        :: BatchEffect.printFileError f.name "cannot identify image file"
        :: (processFiles input_dir out_path target_size rest).1,
       (processFiles input_dir out_path target_size rest).2) := by
  simp only [processFiles]
  rw [downscale_texture_decodeFails ⟨true, f.decodeFails, f.img⟩
        ⟨input_dir, f.stem, f.suffix⟩ (some ⟨out_path, f.stem, f.suffix⟩)
        target_size false rfl hd]
  rfl

/-- The loop collects exactly the ordered output paths of the files that
decode, omitting failed files. -/
theorem processFiles_outputs (input_dir out_path : String) (target_size : ℕ) :
    ∀ files : List BatchFile,
      (processFiles input_dir out_path target_size files).2 =
        (files.filter fun f => !f.decodeFails).map
          (fun f => out_path ++ "/" ++ f.stem ++ f.suffix)
  | [] => rfl
  | f :: rest => by
      cases hd : f.decodeFails with
      | false =>
          rw [processFiles_cons_ok input_dir out_path target_size f rest hd]
          simp [List.filter_cons, hd,
            processFiles_outputs input_dir out_path target_size rest]
      | true =>
          rw [processFiles_cons_err input_dir out_path target_size f rest hd]
          simp [List.filter_cons, hd,
            processFiles_outputs input_dir out_path target_size rest]

/-- Every file of the list that fails to decode has its error report (file
name plus message) in the loop's effect trace. -/
theorem processFiles_reports_failure (input_dir out_path : String)
    (target_size : ℕ) (files : List BatchFile) :
    ∀ f ∈ files, f.decodeFails = true →
      BatchEffect.printFileError f.name "cannot identify image file" ∈
        (processFiles input_dir out_path target_size files).1 := by
  induction files with
  | nil => intro f hf; cases hf
  | cons g rest ih =>
      intro f hf hfail
      rcases List.mem_cons.mp hf with rfl | hf'
      · rw [processFiles_cons_err input_dir out_path target_size f rest hfail]
        simp
      · cases hg : g.decodeFails with
        | false =>
            rw [processFiles_cons_ok input_dir out_path target_size g rest hg]
            exact List.mem_cons_of_mem _ (ih f hf' hfail)
        | true =>
            rw [processFiles_cons_err input_dir out_path target_size g rest hg]
            exact List.mem_cons_of_mem _ (List.mem_cons_of_mem _ (ih f hf' hfail))

/-- Every file of the list has its `downscale_texture` invocation — output
path `{out_path}/{stem}{suffix}`, square-forcing mode — in the trace. -/
theorem processFiles_calls (input_dir out_path : String) (target_size : ℕ)
    (files : List BatchFile) :
    ∀ f ∈ files,
      BatchEffect.callDownscale (input_dir ++ "/" ++ f.stem ++ f.suffix)
        (out_path ++ "/" ++ f.stem ++ f.suffix) target_size false ∈
        (processFiles input_dir out_path target_size files).1 := by
  induction files with
  | nil => intro f hf; cases hf
  | cons g rest ih =>
      intro f hf
      rcases List.mem_cons.mp hf with rfl | hf'
      · cases hg : f.decodeFails with
        | false =>
            rw [processFiles_cons_ok input_dir out_path target_size f rest hg]
            simp
        | true =>
            rw [processFiles_cons_err input_dir out_path target_size f rest hg]
            simp
      · cases hg : g.decodeFails with
        | false =>
            rw [processFiles_cons_ok input_dir out_path target_size g rest hg]
            exact List.mem_cons_of_mem _ (ih f hf')
        | true =>
            rw [processFiles_cons_err input_dir out_path target_size g rest hg]
            exact List.mem_cons_of_mem _ (List.mem_cons_of_mem _ (ih f hf'))

/-- Every `downscale_texture` invocation the loop records is in
square-forcing mode. -/
theorem processFiles_calls_square (input_dir out_path : String)
    (target_size : ℕ) (files : List BatchFile) :
    ∀ i o s m, BatchEffect.callDownscale i o s m ∈
        (processFiles input_dir out_path target_size files).1 → m = false := by
  induction files with
  | nil => intro i o s m hm; cases hm
  | cons g rest ih =>
      intro i o s m hm
      cases hg : g.decodeFails with
      | false =>
          rw [processFiles_cons_ok input_dir out_path target_size g rest hg] at hm
          rcases List.mem_cons.mp hm with heq | hm'
          · injection heq with h1 h2 h3 h4
          · exact ih i o s m hm'
      | true =>
          rw [processFiles_cons_err input_dir out_path target_size g rest hg] at hm
          rcases List.mem_cons.mp hm with heq | hm'
          · injection heq with h1 h2 h3 h4
          · rcases List.mem_cons.mp hm' with heq2 | hm''
            · cases heq2
            · exact ih i o s m hm''

/-- A non-directory input makes `batch_downscale` raise
`NotADirectoryError` before any effect. -/
theorem batch_downscale_notdir (w : BatchWorld) (input_dir : String)
    (output_dir : Option String) (target_size : ℕ)
    (h : w.inputIsDir = false) :
    batch_downscale w input_dir output_dir target_size =
      ([], .error (.notADirectory ("Not a directory: " ++ input_dir))) := by
  unfold batch_downscale
  rw [h]
  rfl

/-- With no matching file, `batch_downscale` creates the output directory,
reports the condition and returns the empty result. -/
theorem batch_downscale_empty (w : BatchWorld) (input_dir : String)
    (output_dir : Option String) (target_size : ℕ)
    (hdir : w.inputIsDir = true) (hempty : matchingFiles w = []) :
    batch_downscale w input_dir output_dir target_size =
      ([.mkdir (resolveOutDir input_dir output_dir target_size) true true,
        .printNoFiles input_dir], .ok []) := by
  unfold batch_downscale
  rw [hdir, hempty]
  rfl

/-- Explicit form of a batch run over a non-empty matching list. -/
theorem batch_downscale_nonempty (w : BatchWorld) (input_dir : String)
    (output_dir : Option String) (target_size : ℕ)
    (hdir : w.inputIsDir = true) (hne : matchingFiles w ≠ []) :
    batch_downscale w input_dir output_dir target_size =
      (BatchEffect.mkdir (resolveOutDir input_dir output_dir target_size) true true
         :: BatchEffect.printProcessing (matchingFiles w).length
         :: (processFiles input_dir (resolveOutDir input_dir output_dir target_size)
              target_size (matchingFiles w)).1
         ++ [BatchEffect.printSummary
               (processFiles input_dir (resolveOutDir input_dir output_dir target_size)
                 target_size (matchingFiles w)).2.length
               (matchingFiles w).length
               (resolveOutDir input_dir output_dir target_size)],
       .ok (processFiles input_dir (resolveOutDir input_dir output_dir target_size)
              target_size (matchingFiles w)).2) := by
  unfold batch_downscale
  rw [hdir]
  have hfalse : (matchingFiles w).isEmpty = false := by
    cases hm : matchingFiles w with
    | nil => exact absurd hm hne
    | cons a l => rfl
  simp only [hfalse]
  rfl

/-- Claim C9: in batch mode a non-directory input makes `batch_downscale`
fail with `NotADirectoryError` before performing any side effect: the
effect trace is empty, so in particular no output directory is created. -/
theorem C9_batch_not_a_directory (w : BatchWorld) (input_dir : String)
    (output_dir : Option String) (target_size : ℕ)
    (h : w.inputIsDir = false) :
    batch_downscale w input_dir output_dir target_size =
      ([], .error (.notADirectory ("Not a directory: " ++ input_dir))) ∧
    ∀ p pa eo, BatchEffect.mkdir p pa eo ∉
        (batch_downscale w input_dir output_dir target_size).1 := by
  have hb := batch_downscale_notdir w input_dir output_dir target_size h
  refine ⟨hb, ?_⟩
  intro p pa eo hmem
  rw [hb] at hmem
  cases hmem

/-- Claim C9 witness: a missing directory input yields only the error. -/
theorem C9_batch_not_a_directory_witness :
    batch_downscale ⟨false, []⟩ "missing" none 16 =
      ([], .error (.notADirectory ("Not a directory: " ++ "missing"))) ∧
    BatchEffect.mkdir "missing/downscaled_16x16" true true ∉
      (batch_downscale ⟨false, []⟩ "missing" none 16).1 :=
  ⟨(C9_batch_not_a_directory ⟨false, []⟩ "missing" none 16 rfl).1,
   (C9_batch_not_a_directory ⟨false, []⟩ "missing" none 16 rfl).2
     "missing/downscaled_16x16" true true⟩

/-- Claim C10: in batch mode with zero matching files, `batch_downscale`
returns the empty result as a success, yet the resolved output directory
(defaulting to `{input_dir}/downscaled_{size}x{size}`) is still created —
with `parents=True, exist_ok=True`, so idempotently and with missing
parents — because the `mkdir` effect precedes the empty check's report. -/
theorem C10_empty_directory (w : BatchWorld) (input_dir : String)
    (output_dir : Option String) (target_size : ℕ)
    (hdir : w.inputIsDir = true) (hempty : matchingFiles w = []) :
    batch_downscale w input_dir output_dir target_size =
      ([.mkdir (resolveOutDir input_dir output_dir target_size) true true,
        .printNoFiles input_dir], .ok []) ∧
    resolveOutDir input_dir none target_size =
      input_dir ++ "/downscaled_" ++ toString target_size ++ "x"
        ++ toString target_size :=
  ⟨batch_downscale_empty w input_dir output_dir target_size hdir hempty, rfl⟩

/-- Claim C10 witness: a directory holding only a `.txt` file. -/
theorem C10_empty_directory_witness :
    batch_downscale emptyBatchWorld "dir" none 16 =
      ([.mkdir (resolveOutDir "dir" none 16) true true,
        .printNoFiles "dir"], .ok []) ∧
    resolveOutDir "dir" none 16 =
      "dir" ++ "/downscaled_" ++ toString 16 ++ "x" ++ toString 16 :=
  C10_empty_directory emptyBatchWorld "dir" none 16 rfl (by decide)

/-- Claim C2: in batch mode with at least one failing file, every failure
is reported (file name plus error message) and processing continues: the
run still succeeds, returning exactly the ordered output paths of the
files that decoded (failed files omitted, no placeholders), and the
succeeded/attempted counts are reported. -/
theorem C2_partial_failure (w : BatchWorld) (input_dir : String)
    (output_dir : Option String) (target_size : ℕ)
    (hdir : w.inputIsDir = true)
    (hfail : ∃ f ∈ matchingFiles w, f.decodeFails = true) :
    (batch_downscale w input_dir output_dir target_size).2 =
      .ok (((matchingFiles w).filter fun f => !f.decodeFails).map
        (fun f => resolveOutDir input_dir output_dir target_size
                    ++ "/" ++ f.stem ++ f.suffix)) ∧
    (∀ f ∈ matchingFiles w, f.decodeFails = true →
      BatchEffect.printFileError f.name "cannot identify image file" ∈
        (batch_downscale w input_dir output_dir target_size).1) ∧
    BatchEffect.printSummary
        (((matchingFiles w).filter fun f => !f.decodeFails).length)
        (matchingFiles w).length
        (resolveOutDir input_dir output_dir target_size) ∈
      (batch_downscale w input_dir output_dir target_size).1 := by
  obtain ⟨f0, hf0, hf0fail⟩ := hfail
  have hne : matchingFiles w ≠ [] := by
    intro hcon
    rw [hcon] at hf0
    cases hf0
  have hb := batch_downscale_nonempty w input_dir output_dir target_size hdir hne
  have hout := processFiles_outputs input_dir
    (resolveOutDir input_dir output_dir target_size) target_size (matchingFiles w)
  refine ⟨?_, ?_, ?_⟩
  · rw [hb, hout]
  · intro f hf hfailf
    rw [hb]
    exact List.mem_cons_of_mem _ (List.mem_cons_of_mem _ (List.mem_append_left _
      (processFiles_reports_failure input_dir
        (resolveOutDir input_dir output_dir target_size) target_size
        (matchingFiles w) f hf hfailf)))
  · have hlen : (processFiles input_dir
        (resolveOutDir input_dir output_dir target_size) target_size
        (matchingFiles w)).2.length
        = ((matchingFiles w).filter fun f => !f.decodeFails).length := by
      rw [hout, List.length_map]
    rw [hb, hlen]
    simp

/-- Claim C2 witness: of three matching files (`a.png`, `b.jpg`, `c.BMP`)
the middle one fails; the run returns the two successful output paths in
order, reports the failing file, and reports counts 2/3. -/
theorem C2_partial_failure_witness :
    (batch_downscale demoBatchWorld "in" none 16).2 =
      .ok ["in/downscaled_16x16/a.png", "in/downscaled_16x16/c.BMP"] ∧
    BatchEffect.printFileError "b.jpg" "cannot identify image file" ∈
      (batch_downscale demoBatchWorld "in" none 16).1 ∧
    BatchEffect.printSummary 2 3 "in/downscaled_16x16" ∈
      (batch_downscale demoBatchWorld "in" none 16).1 :=
  ⟨(C2_partial_failure demoBatchWorld "in" none 16 rfl
      ⟨⟨"b", ".jpg", true, true, ⟨8, 8, "RGB"⟩⟩, by decide, rfl⟩).1,
   (C2_partial_failure demoBatchWorld "in" none 16 rfl
      ⟨⟨"b", ".jpg", true, true, ⟨8, 8, "RGB"⟩⟩, by decide, rfl⟩).2.1
     ⟨"b", ".jpg", true, true, ⟨8, 8, "RGB"⟩⟩ (by decide) rfl,
   (C2_partial_failure demoBatchWorld "in" none 16 rfl
      ⟨⟨"b", ".jpg", true, true, ⟨8, 8, "RGB"⟩⟩, by decide, rfl⟩).2.2⟩

/-- Claim C5: in batch mode every matching file is processed through
`downscale_texture` with output filename `{stem}{original suffix}` placed
in the resolved output directory (no size suffix on the filename), and
every such invocation is in square-forcing mode
(`maintain_aspect = false`), the `--keep-aspect` flag never reaching
`batch_downscale`. -/
theorem C5_batch_square_and_naming (w : BatchWorld) (input_dir : String)
    (output_dir : Option String) (target_size : ℕ)
    (hdir : w.inputIsDir = true) :
    (∀ f ∈ matchingFiles w,
      BatchEffect.callDownscale (input_dir ++ "/" ++ f.stem ++ f.suffix)
        (resolveOutDir input_dir output_dir target_size ++ "/" ++ f.stem ++ f.suffix)
        target_size false ∈
        (batch_downscale w input_dir output_dir target_size).1) ∧
    (∀ i o s m, BatchEffect.callDownscale i o s m ∈
        (batch_downscale w input_dir output_dir target_size).1 → m = false) := by
  by_cases hmf : matchingFiles w = []
  · have hb := batch_downscale_empty w input_dir output_dir target_size hdir hmf
    constructor
    · intro f hf
      rw [hmf] at hf
      cases hf
    · intro i o s m hmem
      rw [hb] at hmem
      simp at hmem
  · have hb := batch_downscale_nonempty w input_dir output_dir target_size hdir hmf
    constructor
    · intro f hf
      rw [hb]
      exact List.mem_cons_of_mem _ (List.mem_cons_of_mem _ (List.mem_append_left _
        (processFiles_calls input_dir
          (resolveOutDir input_dir output_dir target_size) target_size
          (matchingFiles w) f hf)))
    · intro i o s m hmem
      rw [hb] at hmem
      rcases List.mem_cons.mp hmem with heq | hmem1
      · cases heq
      · rcases List.mem_cons.mp hmem1 with heq | hmem2
        · cases heq
        · rcases List.mem_append.mp hmem2 with hIn | hLast
          · exact processFiles_calls_square input_dir
              (resolveOutDir input_dir output_dir target_size) target_size
              (matchingFiles w) i o s m hIn
          · simp at hLast

/-- Claim C5 witness: `grass.png` in a batch at size 16 is invoked with
output `{outdir}/grass.png` and square-forcing mode. -/
theorem C5_batch_square_and_naming_witness :
    BatchEffect.callDownscale ("in" ++ "/" ++ "grass" ++ ".png")
      (resolveOutDir "in" none 16 ++ "/" ++ "grass" ++ ".png") 16 false ∈
      (batch_downscale squareBatchWorld "in" none 16).1 :=
  (C5_batch_square_and_naming squareBatchWorld "in" none 16 rfl).1
    ⟨"grass", ".png", true, false, ⟨32, 32, "RGBA"⟩⟩ (by decide)
